import Mathlib

/-!
Shallow embedding of the options-dashboard data pipeline of
the repository (function load_and_process_data and the interactive
payoff simulator in main), together with the summarizer-side
Spread_Pct / top-N ranking that the specification describes.

Machine reals of the source are modelled as exact rationals (`ℚ`),
pandas cells as strings or an explicit cell type, and the try/except
wrapper of load_and_process_data as an `Except`-valued pipeline whose
caught form returns the empty list.
-/

namespace FinDash

/-- Numeric value of a list of decimal digit characters, most significant
first (the usual left fold, as a numeric parser would read them). -/
def digitsVal (l : List Char) : ℕ :=
  l.foldl (fun a c => a * 10 + (c.toNat - 48)) 0

/-- Parse of a decimal literal, mirroring what the numeric coercion of the
cleaning stage accepts for the price columns: an optional sign, an integer
part and an optional fractional part, at least one digit overall.  The
result is kept as the scaled integer numerator together with the number of
fractional digits, so that the value is the numerator over ten to the
fractional length. -/
def parseDecimal (s : String) : Option (ℤ × ℕ) :=
  let cs := s.toList
  let neg : Bool := match cs with
    | '-' :: _ => true
    | _ => false
  let body := match cs with
    | '-' :: t => t
    | '+' :: t => t
    | t => t
  let ip := body.takeWhile (fun c => c ≠ '.')
  let rest := body.dropWhile (fun c => c ≠ '.')
  if ip.all Char.isDigit then
    match rest with
    | [] =>
      if ip.isEmpty then none
      else some (if neg then -(digitsVal ip : ℤ) else (digitsVal ip : ℤ), 0)
    | _ :: fp =>
      if fp.all Char.isDigit && !(ip.isEmpty && fp.isEmpty) then
        let n : ℤ := digitsVal ip * 10 ^ fp.length + digitsVal fp
        some (if neg then -n else n, fp.length)
      else none
  else none

/-- The rational value of a parsed decimal: the numeric coercion
succeeding, `none` standing for the coerced NaN. -/
def toNumeric (s : String) : Option ℚ :=
  (parseDecimal s).map (fun p => (p.1 : ℚ) / 10 ^ p.2)

/-- Price text cleanup step of the loader: drop every capital C (the
replace step, plain text, no regex). -/
def stripC (s : String) : String :=
  ⟨s.toList.filter (fun c => c ≠ 'C')⟩

/-- One price cell of the cleaning stage: cast to text, strip capital C,
coerce to a number, and fill a failed parse with the sentinel 0. -/
def cleanPrice (s : String) : ℚ :=
  (toNumeric (stripC s)).getD 0

/-- Strict integer literal parse, as the Python int constructor applied by
the astype(int) step to a text cell: optional sign and at least one digit,
nothing else. -/
def parseIntStrict (s : String) : Option ℤ :=
  match s.toList with
  | '-' :: t =>
    if !t.isEmpty && t.all Char.isDigit then some (-(digitsVal t : ℤ)) else none
  | '+' :: t =>
    if !t.isEmpty && t.all Char.isDigit then some ((digitsVal t : ℤ)) else none
  | t =>
    if !t.isEmpty && t.all Char.isDigit then some ((digitsVal t : ℤ)) else none

/-- A raw Expiry cell: missing (NaN), already numeric, or text. -/
inductive ExpiryCell where
  | na : ExpiryCell
  | int (n : ℤ) : ExpiryCell
  | str (s : String) : ExpiryCell
deriving DecidableEq

/-- The fillna and astype(int) steps on the Expiry column: a missing cell
becomes 0, a numeric cell is taken as is, and a text cell must be a strict
integer literal — otherwise astype(int) raises (modelled by
`Except.error`). -/
def expiryToInt : ExpiryCell → Except String ℤ
  | .na => .ok 0
  | .int n => .ok n
  | .str s =>
    match parseIntStrict s with
    | some n => .ok n
    | none => .error ("invalid literal for int")

/-- The to_datetime step with a year-month format and error coercion,
applied to the stringified expiry: six digits split as a year and a month
in 1..12, anything else coercing to a missing date (`none`). -/
def parseYYYYMM (s : String) : Option (ℤ × ℤ) :=
  let cs := s.toList
  if cs.length = 6 ∧ cs.all Char.isDigit then
    let y : ℤ := digitsVal (cs.take 4)
    let m : ℤ := digitsVal (cs.drop 4)
    if 1 ≤ m ∧ m ≤ 12 then some (y, m) else none
  else none

/-- Day number of a civil date (days since 1970-01-01, proleptic
Gregorian), the standard era and year-of-era computation, used to give
Days_To_Expiry a concrete value. -/
def civilToDays (y m d : ℤ) : ℤ :=
  let y2 : ℤ := if m ≤ 2 then y - 1 else y
  let era : ℤ := Int.fdiv y2 400
  let yoe : ℤ := y2 - era * 400
  let mp : ℤ := Int.emod (m + 9) 12
  let doy : ℤ := Int.fdiv (153 * mp + 2) 5 + d - 1
  let doe : ℤ := yoe * 365 + Int.fdiv yoe 4 - Int.fdiv yoe 100 + doy
  era * 146097 + doe - 719468

/-- One input row of the uploaded file, with the raw text price cells and
the raw expiry cell. -/
structure RawRow where
  symbol : String
  type : String
  pc : String
  strike : ℚ
  last : String
  bid : String
  ask : String
  expiry : ExpiryCell
deriving DecidableEq

/-- A row after cleaning and expiry conversion, before the filter keeping
only option rows and before the derived financial columns. -/
structure MidRow where
  symbol : String
  type : String
  pc : String
  strike : ℚ
  last : ℚ
  bid : ℚ
  ask : ℚ
  expiryStr : String
  expiryDate : Option (ℤ × ℤ)
  daysToExpiry : Option ℤ
deriving DecidableEq

/-- A fully processed row, as returned by load_and_process_data. -/
structure ProcRow where
  symbol : String
  type : String
  pc : String
  strike : ℚ
  last : ℚ
  bid : ℚ
  ask : ℚ
  expiryStr : String
  expiryDate : Option (ℤ × ℤ)
  daysToExpiry : Option ℤ
  positionValue : ℚ
  spread : ℚ
  keyLevel : ℚ
  levelType : Option String
  label : String
deriving DecidableEq

/-- Cleaning and expiry handling for one row.  The parameter `now` is the
day number of today; only the expiry integer cast can fail. -/
def midRowE (now : ℤ) (r : RawRow) : Except String MidRow :=
  match expiryToInt r.expiry with
  | .error e => .error e
  | .ok n =>
    let es := toString n
    let ed := parseYYYYMM es
    .ok { symbol := r.symbol, type := r.type, pc := r.pc, strike := r.strike,
          last := cleanPrice r.last, bid := cleanPrice r.bid, ask := cleanPrice r.ask,
          expiryStr := es, expiryDate := ed,
          daysToExpiry := ed.map (fun d => civilToDays d.1 d.2 1 - now) }

/-- Column-wise fallible map, with the first failing cell failing the
whole frame — the semantics of a raising pandas column operation. -/
def mapExcept (f : α → Except String β) : List α → Except String (List β)
  | [] => .ok []
  | a :: l =>
    match f a with
    | .error e => .error e
    | .ok b =>
      match mapExcept f l with
      | .error e => .error e
      | .ok bs => .ok (b :: bs)

/-- The derived financial columns of load_and_process_data:
Position_Value, Spread, Key_Level, Level_Type, Label. -/
def deriveRow (m : MidRow) : ProcRow :=
  { symbol := m.symbol, type := m.type, pc := m.pc, strike := m.strike,
    last := m.last, bid := m.bid, ask := m.ask,
    expiryStr := m.expiryStr, expiryDate := m.expiryDate,
    daysToExpiry := m.daysToExpiry,
    positionValue := m.last * 100,
    spread := m.ask - m.bid,
    keyLevel := if m.pc = "P" then m.strike else m.strike + m.last,
    levelType := if m.pc = "P" then some ("Assignment Price")
                 else if m.pc = "C" then some ("Break-Even Price") else none,
    label := m.symbol ++ " " ++ toString m.strike ++ m.pc }

/-- The body of load_and_process_data up to (but excluding) the except
clause: clean, convert expiries, filter to options, derive. -/
def loadAndProcessDataE (now : ℤ) (rows : List RawRow) : Except String (List ProcRow) :=
  match mapExcept (midRowE now) rows with
  | .error e => .error e
  | .ok mids => .ok ((mids.filter (fun m => m.type == "OPT")).map deriveRow)

/-- load_and_process_data as the dashboard sees it: any raised exception
is caught and an empty frame is returned. -/
def loadAndProcessData (now : ℤ) (rows : List RawRow) : List ProcRow :=
  match loadAndProcessDataE now rows with
  | .ok l => l
  | .error _ => []

/-- Modelled from the spec: the summarizer variant (missing from the
sources provided) derives Spread_Pct as Spread over Ask times 100, left
undefined (NaN, excluded from ranking) when Ask is 0, so that the division
never raises. -/
def spread_pct (r : ProcRow) : Option ℚ :=
  if r.ask = 0 then none else some (r.spread / r.ask * 100)

/-- Modelled from the spec: the rows eligible for the wide-spread ranking
(those with a defined Spread_Pct), each paired with its original row
position and its Spread_Pct value; the argument is the position of the
first row of the suffix being scanned. -/
def rankEligibleAux : ℕ → List ProcRow → List (ℕ × ℚ × ProcRow)
  | _, [] => []
  | i, r :: rs =>
    match spread_pct r with
    | some q => (i, q, r) :: rankEligibleAux (i + 1) rs
    | none => rankEligibleAux (i + 1) rs

/-- Modelled from the spec: the eligible rows of the whole set, positions
counted from 0. -/
def rankEligible (rows : List ProcRow) : List (ℕ × ℚ × ProcRow) :=
  rankEligibleAux 0 rows

/-- Ranking order of the wide-spread callout: greater Spread_Pct first,
ties by original row position. -/
def rankLE (a b : ℕ × ℚ × ProcRow) : Prop :=
  b.2.1 < a.2.1 ∨ (a.2.1 = b.2.1 ∧ a.1 ≤ b.1)

instance : DecidableRel rankLE := fun a b => by
  unfold rankLE; exact inferInstance

instance : IsTotal (ℕ × ℚ × ProcRow) rankLE :=
  ⟨fun a b => by
    unfold rankLE
    rcases lt_trichotomy a.2.1 b.2.1 with h | h | h
    · exact Or.inr (Or.inl h)
    · rcases Nat.le_total a.1 b.1 with hn | hn
      · exact Or.inl (Or.inr ⟨h, hn⟩)
      · exact Or.inr (Or.inr ⟨h.symm, hn⟩)
    · exact Or.inl (Or.inl h)⟩

instance : IsTrans (ℕ × ℚ × ProcRow) rankLE :=
  ⟨fun a b c hab hbc => by
    unfold rankLE at *
    rcases hab with hab | ⟨hab, hab2⟩
    · rcases hbc with hbc | ⟨hbc, _⟩
      · exact Or.inl (hbc.trans hab)
      · exact Or.inl (hbc ▸ hab)
    · rcases hbc with hbc | ⟨hbc, hbc2⟩
      · exact Or.inl (hab ▸ hbc)
      · exact Or.inr ⟨hab.trans hbc, hab2.trans hbc2⟩⟩

/-- Modelled from the spec: the eligible rows sorted by descending
Spread_Pct, ties by original position. -/
def rankedSorted (rows : List ProcRow) : List (ℕ × ℚ × ProcRow) :=
  List.insertionSort rankLE (rankEligible rows)

/-- Modelled from the spec: the top-N wide-spread (high cost trades)
selection. -/
def topNBySpreadPct (n : ℕ) (rows : List ProcRow) : List ProcRow :=
  ((rankedSorted rows).take n).map (fun x => x.2.2)

/-- Intrinsic value at expiry of the payoff simulator: spot minus strike
clamped at 0 for a call, strike minus spot clamped at 0 otherwise. -/
def intrinsicVal (pc : String) (strike spot : ℚ) : ℚ :=
  if pc = "C" then max 0 (spot - strike) else max 0 (strike - spot)

/-- Contract value: intrinsic value times the 100 multiplier. -/
def contractVal (pc : String) (strike spot : ℚ) : ℚ :=
  intrinsicVal pc strike spot * 100

/-- The Python int conversion on a rational: truncation toward zero. -/
def ratTrunc (q : ℚ) : ℤ :=
  if q < 0 then -(Int.floor (-q)) else Int.floor q

/-- The integers from `lo` up to `hi - 1`, as the Python range builtin. -/
def pricesRange (lo hi : ℤ) : List ℤ :=
  (List.range (hi - lo).toNat).map (fun k : ℕ => lo + (k : ℤ))

/-- The sampled spot prices of the payoff chart: the integer range from
the truncated half strike up to the truncated one-and-a-half strike. -/
def payoffPrices (strike : ℚ) : List ℤ :=
  pricesRange (ratTrunc (strike * (1 / 2))) (ratTrunc (strike * (3 / 2)))

/-- The payoff-chart ordinates: one intrinsic value per sampled price. -/
def payoffValues (pc : String) (strike : ℚ) : List ℚ :=
  (payoffPrices strike).map (fun p : ℤ => intrinsicVal pc strike ((p : ℚ)))

/-- The example input row of the spec: Symbol ABC, an OPT call, Strike 50,
Last 2.5, Bid 2.0, Ask 3.0, Expiry 202501. -/
def exRow : RawRow :=
  { symbol := "ABC", type := "OPT", pc := "C", strike := 50,
    last := "2.5", bid := "2.0", ask := "3.0", expiry := .int 202501 }

/-- The example row after cleaning and expiry conversion (20089 is the
day number of 2025-01-01). -/
def exMid : MidRow :=
  { symbol := "ABC", type := "OPT", pc := "C", strike := 50,
    last := cleanPrice ("2.5"), bid := cleanPrice ("2.0"), ask := cleanPrice ("3.0"),
    expiryStr := "202501", expiryDate := some (2025, 1), daysToExpiry := some 20089 }

/-- An input row whose Expiry cell is text that astype(int) cannot
convert. -/
def badExpiryRow : RawRow :=
  { symbol := "XYZ", type := "OPT", pc := "P", strike := 50,
    last := "1", bid := "1", ask := "2", expiry := .str ("Jan2025") }

/-- A processed row with a defined Spread_Pct, for concrete ranking
checks. -/
def wRowA : ProcRow :=
  { symbol := "AAA", type := "OPT", pc := "C", strike := 1, last := 1, bid := 1, ask := 2,
    expiryStr := "202501", expiryDate := some (2025, 1), daysToExpiry := some 0,
    positionValue := 100, spread := 1, keyLevel := 2,
    levelType := some ("Break-Even Price"), label := "AAA 1C" }

/-- A processed row with Ask 0, hence an undefined Spread_Pct, for
concrete ranking checks. -/
def wRowB : ProcRow :=
  { symbol := "BBB", type := "OPT", pc := "P", strike := 1, last := 1, bid := 1, ask := 0,
    expiryStr := "202501", expiryDate := some (2025, 1), daysToExpiry := some 0,
    positionValue := 100, spread := 1, keyLevel := 1,
    levelType := some ("Assignment Price"), label := "BBB 1P" }

/-! Helper lemmas shared by the claim theorems. -/

theorem exPipeline : loadAndProcessData 0 [exRow] = [deriveRow exMid] := rfl

theorem exMid_mem : deriveRow exMid ∈ loadAndProcessData 0 [exRow] := by
  rw [exPipeline]; exact List.mem_singleton.mpr rfl

theorem mem_load (now : ℤ) (rows : List RawRow) (r : ProcRow)
    (h : r ∈ loadAndProcessData now rows) :
    ∃ m : MidRow, m.type = "OPT" ∧ r = deriveRow m := by
  unfold loadAndProcessData at h
  cases he : loadAndProcessDataE now rows with
  | error e => rw [he] at h; simp at h
  | ok l =>
    rw [he] at h
    unfold loadAndProcessDataE at he
    cases hm : mapExcept (midRowE now) rows with
    | error e => rw [hm] at he; cases he
    | ok mids =>
      rw [hm] at he
      injection he with he2
      subst he2
      simp only [List.mem_map, List.mem_filter] at h
      obtain ⟨m, ⟨_, hopt⟩, rfl⟩ := h
      exact ⟨m, by simpa using hopt, rfl⟩

theorem clean25 : cleanPrice ("2.5") = 5 / 2 := by
  have h : parseDecimal (stripC ("2.5")) = some (25, 1) := by decide
  simp [cleanPrice, toNumeric, h]
  norm_num

theorem clean20 : cleanPrice ("2.0") = 2 := by
  have h : parseDecimal (stripC ("2.0")) = some (20, 1) := by decide
  simp [cleanPrice, toNumeric, h]
  norm_num

theorem clean30 : cleanPrice ("3.0") = 3 := by
  have h : parseDecimal (stripC ("3.0")) = some (30, 1) := by decide
  simp [cleanPrice, toNumeric, h]
  norm_num

theorem mapExcept_ok_of_all (f : α → Except String β) (l : List α)
    (h : ∀ a ∈ l, ∃ b, f a = .ok b) : ∃ bs, mapExcept f l = .ok bs := by
  induction l with
  | nil => exact ⟨[], rfl⟩
  | cons a l ih =>
    obtain ⟨b, hb⟩ := h a (List.mem_cons_self a l)
    obtain ⟨bs, hbs⟩ := ih (fun x hx => h x (List.mem_cons_of_mem a hx))
    exact ⟨b :: bs, by unfold mapExcept; rw [hb, hbs]⟩

theorem mapExcept_error_of_ex (f : α → Except String β) (l : List α)
    (h : ∃ a ∈ l, ∀ b, f a ≠ .ok b) : ∃ e, mapExcept f l = .error e := by
  induction l with
  | nil => simp at h
  | cons a l ih =>
    obtain ⟨x, hx, hbad⟩ := h
    rcases List.mem_cons.mp hx with rfl | hx2
    · cases hfa : f x with
      | error e => exact ⟨e, by unfold mapExcept; rw [hfa]⟩
      | ok b => exact absurd hfa (hbad b)
    · cases hfa : f a with
      | error e => exact ⟨e, by unfold mapExcept; rw [hfa]⟩
      | ok b =>
        obtain ⟨e, he⟩ := ih ⟨x, hx2, hbad⟩
        exact ⟨e, by unfold mapExcept; rw [hfa, he]⟩

theorem mem_of_mapExcept (f : α → Except String β) (l : List α) (bs : List β)
    (h : mapExcept f l = .ok bs) (b : β) (hb : b ∈ bs) : ∃ a ∈ l, f a = .ok b := by
  induction l generalizing bs with
  | nil =>
    unfold mapExcept at h
    injection h with h2
    subst h2
    simp at hb
  | cons a l ih =>
    unfold mapExcept at h
    cases hfa : f a with
    | error e => rw [hfa] at h; cases h
    | ok c =>
      rw [hfa] at h
      cases hm : mapExcept f l with
      | error e => rw [hm] at h; cases h
      | ok cs =>
        rw [hm] at h
        injection h with h2
        subst h2
        rcases List.mem_cons.mp hb with rfl | hb2
        · exact ⟨a, List.mem_cons_self a l, hfa⟩
        · obtain ⟨x, hx, hfx⟩ := ih cs hm hb2
          exact ⟨x, List.mem_cons_of_mem a hx, hfx⟩

theorem midRowE_ok_iff (now : ℤ) (raw : RawRow) :
    (∃ m, midRowE now raw = .ok m) ↔ ∃ n, expiryToInt raw.expiry = .ok n := by
  unfold midRowE
  cases he : expiryToInt raw.expiry with
  | error e =>
    constructor
    · rintro ⟨m, hm⟩; cases hm
    · rintro ⟨n, hn⟩; cases hn
  | ok n =>
    constructor
    · intro _; exact ⟨n, rfl⟩
    · intro _; exact ⟨_, rfl⟩

theorem midRowE_expiry (now : ℤ) (raw : RawRow) (m : MidRow)
    (h : midRowE now raw = .ok m) : m.expiryDate = parseYYYYMM m.expiryStr := by
  unfold midRowE at h
  cases he : expiryToInt raw.expiry with
  | error e => rw [he] at h; cases h
  | ok n =>
    rw [he] at h
    injection h with h2
    subst h2
    rfl

theorem mem_load_mid (now : ℤ) (rows : List RawRow) (r : ProcRow)
    (h : r ∈ loadAndProcessData now rows) :
    ∃ m : MidRow, (∃ raw ∈ rows, midRowE now raw = .ok m) ∧ r = deriveRow m := by
  unfold loadAndProcessData at h
  cases he : loadAndProcessDataE now rows with
  | error e => rw [he] at h; simp at h
  | ok l =>
    rw [he] at h
    unfold loadAndProcessDataE at he
    cases hm : mapExcept (midRowE now) rows with
    | error e => rw [hm] at he; cases he
    | ok mids =>
      rw [hm] at he
      injection he with he2
      subst he2
      simp only [List.mem_map, List.mem_filter] at h
      obtain ⟨m, ⟨hmem, _⟩, rfl⟩ := h
      exact ⟨m, mem_of_mapExcept _ _ _ hm m hmem, rfl⟩

theorem ratTrunc_intCast (n : ℤ) : ratTrunc (n : ℚ) = n := by
  unfold ratTrunc
  split
  · rw [← Int.cast_neg, Int.floor_intCast]; ring
  · rw [Int.floor_intCast]

theorem payoffValues_getD (pc : String) (strike : ℚ) (k : ℕ)
    (hk : k < (payoffValues pc strike).length) :
    (payoffValues pc strike).getD k 0 =
      intrinsicVal pc strike ((ratTrunc (strike * (1 / 2)) + (k : ℤ) : ℤ) : ℚ) := by
  rw [List.getD_eq_getElem _ _ hk]
  simp only [payoffValues, payoffPrices, pricesRange, List.getElem_map, List.getElem_range]

theorem payoffValues_length_C100 : (payoffValues ("C") 100).length = 100 := by
  have h1 : ((100 : ℚ) * (1 / 2)) = ((50 : ℤ) : ℚ) := by norm_num
  have h2 : ((100 : ℚ) * (3 / 2)) = ((150 : ℤ) : ℚ) := by norm_num
  rw [payoffValues, List.length_map, payoffPrices, h1, h2, ratTrunc_intCast,
    ratTrunc_intCast, pricesRange, List.length_map, List.length_range]
  rfl

theorem rankEligibleAux_idx_le (i : ℕ) (rows : List ProcRow) :
    ∀ x ∈ rankEligibleAux i rows, i ≤ x.1 := by
  induction rows generalizing i with
  | nil => intro x hx; simp [rankEligibleAux] at hx
  | cons r rs ih =>
    intro x hx
    unfold rankEligibleAux at hx
    cases hq : spread_pct r with
    | some q =>
      rw [hq] at hx
      rcases List.mem_cons.mp hx with rfl | hx2
      · exact le_rfl
      · exact le_trans (Nat.le_succ i) (ih (i + 1) x hx2)
    | none =>
      rw [hq] at hx
      exact le_trans (Nat.le_succ i) (ih (i + 1) x hx)

theorem rankEligibleAux_pairwise (i : ℕ) (rows : List ProcRow) :
    List.Pairwise (fun a b => a.1 < b.1) (rankEligibleAux i rows) := by
  induction rows generalizing i with
  | nil => simp [rankEligibleAux]
  | cons r rs ih =>
    unfold rankEligibleAux
    cases hq : spread_pct r with
    | some q =>
      refine List.Pairwise.cons ?_ (ih (i + 1))
      intro x hx
      exact lt_of_lt_of_le (Nat.lt_succ_self i) (rankEligibleAux_idx_le (i + 1) rs x hx)
    | none => exact ih (i + 1)

theorem rankEligibleAux_val (i : ℕ) (rows : List ProcRow) :
    ∀ x ∈ rankEligibleAux i rows, spread_pct x.2.2 = some x.2.1 := by
  induction rows generalizing i with
  | nil => intro x hx; simp [rankEligibleAux] at hx
  | cons r rs ih =>
    intro x hx
    unfold rankEligibleAux at hx
    cases hq : spread_pct r with
    | some q =>
      rw [hq] at hx
      rcases List.mem_cons.mp hx with rfl | hx2
      · exact hq
      · exact ih (i + 1) x hx2
    | none =>
      rw [hq] at hx
      exact ih (i + 1) x hx

theorem rankedSorted_perm (rows : List ProcRow) :
    List.Perm (rankedSorted rows) (rankEligible rows) :=
  List.perm_insertionSort rankLE (rankEligible rows)

theorem rankedSorted_sorted (rows : List ProcRow) :
    List.Sorted rankLE (rankedSorted rows) :=
  List.sorted_insertionSort rankLE (rankEligible rows)

theorem rankedSorted_idx_ne (rows : List ProcRow) :
    List.Pairwise (fun a b : ℕ × ℚ × ProcRow => a.1 ≠ b.1) (rankedSorted rows) := by
  refine (List.Perm.pairwise_iff (fun h => Ne.symm h) (rankedSorted_perm rows)).mpr ?_
  exact (rankEligibleAux_pairwise 0 rows).imp (fun h => Nat.ne_of_lt h)

/-! The claim theorems. -/

/-- C1: every row produced by load_and_process_data has
Spread = Ask - Bid exactly, and the (spec-modelled) Spread_Pct equals
Spread / Ask * 100 whenever Ask is nonzero, while for Ask = 0 it is the
defined missing value `none` — total, never a crash. -/
theorem C1_spread_and_spread_pct (now : ℤ) (rows : List RawRow) (r : ProcRow)
    (h : r ∈ loadAndProcessData now rows) :
    r.spread = r.ask - r.bid ∧
    (r.ask ≠ 0 → spread_pct r = some ((r.ask - r.bid) / r.ask * 100)) ∧
    (r.ask = 0 → spread_pct r = none) := by
  obtain ⟨m, _, rfl⟩ := mem_load now rows r h
  dsimp only [deriveRow, spread_pct]
  refine ⟨rfl, fun hne => ?_, fun hz => ?_⟩
  · rw [if_neg hne]
  · rw [if_pos hz]

/-- C1 witness: the example row has Spread = Ask - Bid = 1 and
Spread_Pct = 100 / 3. -/
theorem C1_witness :
    (deriveRow exMid).spread = (deriveRow exMid).ask - (deriveRow exMid).bid ∧
    spread_pct (deriveRow exMid) = some (100 / 3) := by
  obtain ⟨h1, h2, h3⟩ := C1_spread_and_spread_pct 0 [exRow] (deriveRow exMid) exMid_mem
  have hask : (deriveRow exMid).ask = 3 := by simp [deriveRow, exMid, clean30]
  have hbid : (deriveRow exMid).bid = 2 := by simp [deriveRow, exMid, clean20]
  refine ⟨h1, ?_⟩
  rw [h2 (by rw [hask]; norm_num), hask, hbid]
  norm_num

/-- C2: for any processed row set and any N at most the number of eligible
rows, the (spec-modelled) top-N selection has exactly N rows, drawn from
the eligible rows (permutation), ordered by descending Spread_Pct with
ties in strictly original row order, and every selected entry has a
Spread_Pct at least that of every non-selected eligible entry. -/
theorem C2_top_n (rows : List ProcRow) (n : ℕ)
    (hn : n ≤ (rankEligible rows).length) :
    (topNBySpreadPct n rows).length = n ∧
    List.Perm (rankedSorted rows) (rankEligible rows) ∧
    (∀ x ∈ rankedSorted rows, spread_pct x.2.2 = some x.2.1) ∧
    (∀ i j : Fin ((rankedSorted rows).take n).length, i < j →
      (((rankedSorted rows).take n).get j).2.1 ≤ (((rankedSorted rows).take n).get i).2.1 ∧
      ((((rankedSorted rows).take n).get i).2.1 = (((rankedSorted rows).take n).get j).2.1 →
        (((rankedSorted rows).take n).get i).1 < (((rankedSorted rows).take n).get j).1)) ∧
    (∀ a ∈ (rankedSorted rows).drop n, ∀ b ∈ (rankedSorted rows).take n, a.2.1 ≤ b.2.1) ∧
    topNBySpreadPct n rows = ((rankedSorted rows).take n).map (fun x => x.2.2) := by
  refine ⟨?_, rankedSorted_perm rows, ?_, ?_, ?_, rfl⟩
  · rw [topNBySpreadPct, List.length_map, List.length_take,
      (rankedSorted_perm rows).length_eq]
    exact Nat.min_eq_left hn
  · intro x hx
    exact rankEligibleAux_val 0 rows x ((rankedSorted_perm rows).mem_iff.mp hx)
  · intro i j hij
    have hsorted : List.Pairwise rankLE ((rankedSorted rows).take n) :=
      List.Pairwise.sublist (List.take_sublist n (rankedSorted rows))
        (rankedSorted_sorted rows)
    have hne : List.Pairwise (fun a b : ℕ × ℚ × ProcRow => a.1 ≠ b.1)
        ((rankedSorted rows).take n) :=
      List.Pairwise.sublist (List.take_sublist n (rankedSorted rows))
        (rankedSorted_idx_ne rows)
    have hrel := List.pairwise_iff_get.mp hsorted i j hij
    have hne2 := List.pairwise_iff_get.mp hne i j hij
    rcases hrel with hlt | ⟨heq, hle⟩
    · refine ⟨le_of_lt hlt, fun he => ?_⟩
      rw [he] at hlt
      exact absurd hlt (lt_irrefl _)
    · exact ⟨le_of_eq heq.symm, fun _ => lt_of_le_of_ne hle hne2⟩
  · intro a ha b hb
    have hall : List.Pairwise rankLE
        ((rankedSorted rows).take n ++ (rankedSorted rows).drop n) := by
      rw [List.take_append_drop]
      exact rankedSorted_sorted rows
    rcases (List.pairwise_append.mp hall).2.2 b hb a ha with hlt | ⟨heq, _⟩
    · exact le_of_lt hlt
    · exact le_of_eq heq.symm

/-- C2 witness: on three rows of which two are eligible (the third has
Ask 0), the top-2 selection returns exactly 2 rows. -/
theorem C2_witness : (topNBySpreadPct 2 [wRowA, wRowA, wRowB]).length = 2 :=
  (C2_top_n [wRowA, wRowA, wRowB] 2 (by
    have ha : spread_pct wRowA = some 50 := by
      rw [spread_pct]
      norm_num [wRowA]
    have hb : spread_pct wRowB = none := by
      rw [spread_pct]
      norm_num [wRowB]
    simp [rankEligible, rankEligibleAux, ha, hb])).1

/-- C3: every processed option row has Key_Level = Strike with Level_Type
Assignment Price when the flag is P, and Key_Level = Strike + Last with
Level_Type Break-Even Price when the flag is C. -/
theorem C3_key_level (now : ℤ) (rows : List RawRow) (r : ProcRow)
    (h : r ∈ loadAndProcessData now rows) :
    (r.pc = "P" → r.keyLevel = r.strike ∧ r.levelType = some ("Assignment Price")) ∧
    (r.pc = "C" → r.keyLevel = r.strike + r.last ∧ r.levelType = some ("Break-Even Price")) := by
  obtain ⟨m, _, rfl⟩ := mem_load now rows r h
  dsimp only [deriveRow]
  constructor
  · intro hp; simp [hp]
  · intro hc; simp [hc]

/-- C3 witness: the example call row has Key_Level = Strike + Last and
Level_Type Break-Even Price. -/
theorem C3_witness :
    (deriveRow exMid).keyLevel = (deriveRow exMid).strike + (deriveRow exMid).last ∧
    (deriveRow exMid).levelType = some ("Break-Even Price") :=
  (C3_key_level 0 [exRow] (deriveRow exMid) exMid_mem).2 (by simp [deriveRow, exMid])

/-- C4: the payoff simulator computes intrinsic value as spot minus strike
clamped at 0 for calls and strike minus spot clamped at 0 for puts, with
contract value 100 times the intrinsic value; at strike 100 a call is
worth 0 at spot 90 and 20 (contract 2000) at spot 120, and a put is worth
20 at spot 80 and 0 at spot 120. -/
theorem C4_payoff (strike spot : ℚ) :
    intrinsicVal ("C") strike spot = max 0 (spot - strike) ∧
    intrinsicVal ("P") strike spot = max 0 (strike - spot) ∧
    contractVal ("C") strike spot = intrinsicVal ("C") strike spot * 100 ∧
    contractVal ("P") strike spot = intrinsicVal ("P") strike spot * 100 ∧
    intrinsicVal ("C") 100 90 = 0 ∧ intrinsicVal ("C") 100 120 = 20 ∧
    contractVal ("C") 100 120 = 2000 ∧
    intrinsicVal ("P") 100 80 = 20 ∧ intrinsicVal ("P") 100 120 = 0 := by
  have hpc : ("P" : String) ≠ "C" := by decide
  refine ⟨rfl, by simp only [intrinsicVal, if_neg hpc], rfl, rfl, ?_, ?_, ?_, ?_, ?_⟩
  all_goals norm_num [intrinsicVal, contractVal, max_def, if_neg hpc]

/-- C5: the price cleaner turns a text cell into its parsed numeric value
when the stripped text parses, into the sentinel 0 when it does not, and
the cleaning stage itself can never fail a row (only the expiry cast
can); a stripped capital C parses, an embedded currency marker and an
empty cell clean to 0. -/
theorem C5_cleaning (s : String) :
    (toNumeric (stripC s) = none → cleanPrice s = 0) ∧
    (∀ q, toNumeric (stripC s) = some q → cleanPrice s = q) ∧
    (∀ (now : ℤ) (r : RawRow),
      (∃ m, midRowE now r = .ok m) ↔ ∃ n, expiryToInt r.expiry = .ok n) ∧
    cleanPrice ("12.5C") = 25 / 2 ∧ cleanPrice ("$12") = 0 ∧ cleanPrice ("") = 0 := by
  refine ⟨fun hnone => ?_, fun q hq => ?_, midRowE_ok_iff, ?_, ?_, ?_⟩
  · simp [cleanPrice, hnone]
  · simp [cleanPrice, hq]
  · have h : parseDecimal (stripC ("12.5C")) = some (125, 1) := by decide
    simp [cleanPrice, toNumeric, h]
    norm_num
  · have h : parseDecimal (stripC ("$12")) = none := by decide
    simp [cleanPrice, toNumeric, h]
  · have h : parseDecimal (stripC ("")) = none := by decide
    simp [cleanPrice, toNumeric, h]

/-- C5 witness: a cell of plain letters cleans to the sentinel 0. -/
theorem C5_witness : cleanPrice ("abc") = 0 :=
  (C5_cleaning "abc").1 (by decide)

/-- C6 counterexample: a row whose Expiry is the non-integer text Jan2025
does not degrade to a row with a missing expiry date — the integer cast
raises and the caught pipeline returns the empty frame, so the claimed
fail-soft behaviour does not happen for such values. -/
theorem C6_counterexample :
    loadAndProcessDataE 0 [badExpiryRow] = Except.error ("invalid literal for int") ∧
    loadAndProcessData 0 [badExpiryRow] = [] := ⟨rfl, rfl⟩

/-- C6 (amended): when every Expiry cell survives the integer cast
(missing or numeric cells always do), the pipeline succeeds and each
processed row carries exactly the coerced year-month parse of its expiry
string — an unparseable year-month degrading to a missing date; but when
some Expiry cell fails the integer cast, the whole load returns the empty
row set instead of degrading that row. -/
theorem C6_amended (now : ℤ) (rows : List RawRow) :
    ((∀ r ∈ rows, ∃ n, expiryToInt r.expiry = .ok n) →
      ∃ l, loadAndProcessDataE now rows = .ok l) ∧
    (∀ p ∈ loadAndProcessData now rows, p.expiryDate = parseYYYYMM p.expiryStr) ∧
    ((∃ r ∈ rows, ∀ n, expiryToInt r.expiry ≠ .ok n) →
      loadAndProcessData now rows = []) := by
  refine ⟨fun hall => ?_, fun p hp => ?_, fun hex => ?_⟩
  · obtain ⟨bs, hbs⟩ := mapExcept_ok_of_all (midRowE now) rows
      (fun a ha => (midRowE_ok_iff now a).mpr (hall a ha))
    exact ⟨_, by unfold loadAndProcessDataE; rw [hbs]⟩
  · obtain ⟨m, ⟨raw, _, hraw⟩, rfl⟩ := mem_load_mid now rows p hp
    have h2 := midRowE_expiry now raw m hraw
    simpa [deriveRow] using h2
  · have hba : ∃ a ∈ rows, ∀ b, midRowE now a ≠ .ok b := by
      obtain ⟨r, hr, hbad⟩ := hex
      refine ⟨r, hr, fun m hm => ?_⟩
      obtain ⟨n, hn⟩ := (midRowE_ok_iff now r).mp ⟨m, hm⟩
      exact hbad n hn
    obtain ⟨e, he⟩ := mapExcept_error_of_ex (midRowE now) rows hba
    unfold loadAndProcessData loadAndProcessDataE
    rw [he]

/-- C6 witness: the processed example row carries the year-month parse of
its expiry string. -/
theorem C6_witness :
    (deriveRow exMid).expiryDate = parseYYYYMM (deriveRow exMid).expiryStr :=
  (C6_amended 0 [exRow]).2.1 (deriveRow exMid) exMid_mem

/-- C7: every processed row has Position_Value = Last * 100, and the
example row of the spec processes to Spread 1, Key_Level 52.5, Level_Type
Break-Even Price and Position_Value 250. -/
theorem C7_position_value (now : ℤ) (rows : List RawRow) (r : ProcRow)
    (h : r ∈ loadAndProcessData now rows) :
    r.positionValue = r.last * 100 ∧
    (loadAndProcessData 0 [exRow]).map
        (fun p => (p.spread, p.keyLevel, p.levelType, p.positionValue)) =
      [(1, 105 / 2, some ("Break-Even Price"), 250)] := by
  constructor
  · obtain ⟨m, _, rfl⟩ := mem_load now rows r h
    rfl
  · rw [exPipeline]
    simp [deriveRow, exMid, clean25, clean20, clean30]
    norm_num

/-- C7 witness: the processed example row satisfies
Position_Value = Last * 100. -/
theorem C7_witness : (deriveRow exMid).positionValue = (deriveRow exMid).last * 100 :=
  (C7_position_value 0 [exRow] (deriveRow exMid) exMid_mem).1

/-- C8: the payoff curve sampled over the price range from half strike to
one-and-a-half strike is monotone at every pair of sampled indices:
non-decreasing for calls and non-increasing for every non-call flag. -/
theorem C8_monotone (pc : String) (strike : ℚ) (i j : ℕ) (hij : i ≤ j)
    (hj : j < (payoffValues pc strike).length) :
    (pc = "C" →
      (payoffValues pc strike).getD i 0 ≤ (payoffValues pc strike).getD j 0) ∧
    (pc ≠ "C" →
      (payoffValues pc strike).getD j 0 ≤ (payoffValues pc strike).getD i 0) := by
  have hi : i < (payoffValues pc strike).length := lt_of_le_of_lt hij hj
  rw [payoffValues_getD pc strike i hi, payoffValues_getD pc strike j hj]
  have hle : ((ratTrunc (strike * (1 / 2)) + (i : ℤ) : ℤ) : ℚ) ≤
      ((ratTrunc (strike * (1 / 2)) + (j : ℤ) : ℤ) : ℚ) := by
    exact_mod_cast add_le_add_left (Int.ofNat_le.mpr hij) _
  constructor
  · intro hc
    simp only [intrinsicVal, if_pos hc]
    exact max_le_max le_rfl (sub_le_sub_right hle _)
  · intro hc
    simp only [intrinsicVal, if_neg hc]
    exact max_le_max le_rfl (sub_le_sub_left hle _)

/-- C8 witness: for a call of strike 100 the sampled payoff at index 0 is
at most the one at index 10. -/
theorem C8_witness :
    (payoffValues ("C") 100).getD 0 0 ≤ (payoffValues ("C") 100).getD 10 0 :=
  (C8_monotone "C" 100 0 10 (by norm_num)
    (by rw [payoffValues_length_C100]; norm_num)).1 rfl

/-- C9: every row returned by load_and_process_data has Type OPT — no
non-option row survives the filter. -/
theorem C9_only_options (now : ℤ) (rows : List RawRow) (r : ProcRow)
    (h : r ∈ loadAndProcessData now rows) : r.type = "OPT" := by
  obtain ⟨m, hm, rfl⟩ := mem_load now rows r h
  simpa [deriveRow] using hm

/-- C9 witness: the processed example row has Type OPT. -/
theorem C9_witness : (deriveRow exMid).type = "OPT" :=
  C9_only_options 0 [exRow] (deriveRow exMid) exMid_mem

/-- C10: loading and derivation are all-or-nothing — when the uncaught
pipeline raises, the caught result is the empty row set, and when it
succeeds, the caught result is exactly its output, so no partially
processed frame is ever returned. -/
theorem C10_all_or_nothing (now : ℤ) (rows : List RawRow) :
    (∀ e, loadAndProcessDataE now rows = .error e → loadAndProcessData now rows = []) ∧
    (∀ l, loadAndProcessDataE now rows = .ok l → loadAndProcessData now rows = l) := by
  constructor
  · intro e he; unfold loadAndProcessData; rw [he]
  · intro l hl; unfold loadAndProcessData; rw [hl]

/-- C10 witness: the bad-expiry row raises inside the pipeline and the
caught result is the empty row set. -/
theorem C10_witness : loadAndProcessData 0 [badExpiryRow] = [] :=
  (C10_all_or_nothing 0 [badExpiryRow]).1 ("invalid literal for int") rfl

end FinDash
